import Mathlib

/-!
Verification development for the FitFact chatbot's query-cache layer
(`database_files/cache_manager.py`, `auto_cache_manager.py`).

The Python code is shallowly embedded: strings are Lean strings restricted to
the ASCII behaviour of Python's `str` methods, the PostgreSQL tables are lists
of rows threaded through the operations as explicit state, timestamps are
integer day counts, the external `similarity` SQL function is a parameter, and
operations that touch the database return `Except` so that an unreachable
store is observable.  Row order of SQL result sets without ORDER BY is
unspecified by SQL; the model fixes list order, and no theorem below depends
on the order of such ties.
-/

set_option autoImplicit false
set_option maxRecDepth 100000
set_option maxHeartbeats 4000000

namespace FitFact

/-- ASCII model of Python `str.lower`. -/
def pyLower (s : String) : String := String.mk (s.data.map Char.toLower)

/-- Model of the regex class `\w` on ASCII text: letters, digits, underscore. -/
def isWordChar (c : Char) : Bool := c.isAlphanum || c == '_'

/-- Model of the regex class `\s` on ASCII text. -/
def isSpaceChar (c : Char) : Bool :=
  c == ' ' || c == '\t' || c == '\n' || c == '\r' || c == '\x0b' || c == '\x0c'

/-- Accumulator-based splitter behind `pyWords`. -/
def wordsAux : List Char → List Char → List (List Char)
  | acc, [] => if acc.isEmpty then [] else [acc.reverse]
  | acc, c :: cs =>
    if isSpaceChar c then
      if acc.isEmpty then wordsAux [] cs else acc.reverse :: wordsAux [] cs
    else wordsAux (c :: acc) cs

/-- Model of Python `str.split()` with no argument: split on whitespace runs,
dropping empty pieces. -/
def pyWords (s : List Char) : List (List Char) := wordsAux [] s

/-- Lexicographic comparison by code point, the order Python uses on `str`. -/
def lexLe : List Char → List Char → Bool
  | [], _ => true
  | _ :: _, [] => false
  | a :: as, b :: bs => a.toNat < b.toNat || (a.toNat == b.toNat && lexLe as bs)

/-- Ordered insert for `sortWords`. -/
def insertSorted (w : List Char) : List (List Char) → List (List Char)
  | [] => [w]
  | x :: xs => if lexLe w x then w :: x :: xs else x :: insertSorted w xs

/-- Insertion sort; on a total order it agrees with Python's stable `list.sort`. -/
def sortWords : List (List Char) → List (List Char)
  | [] => []
  | w :: ws => insertSorted w (sortWords ws)

/-- Model of `' '.join(words)`. -/
def joinSp : List (List Char) → List Char
  | [] => []
  | [w] => w
  | w :: w2 :: ws => w ++ ' ' :: joinSp (w2 :: ws)

/-- The stop-word set of `CacheManager.normalize_query`. -/
def stop_words : List (List Char) :=
  ["what".data, "is".data, "the".data, "of".data, "for".data, "and".data,
   "a".data, "an".data, "to".data, "in".data, "are".data, "how".data]

/-- Embedding of `CacheManager.normalize_query`: lowercase, delete every
character that is neither a word character nor whitespace, split on
whitespace, drop stop words, sort the tokens, join with single spaces. -/
def normalize_query (query : String) : String :=
  let lowered := (pyLower query).data
  let stripped := lowered.filter (fun c => isWordChar c || isSpaceChar c)
  let words := pyWords stripped
  let kept := words.filter (fun w => !(stop_words.contains w))
  String.mk (joinSp (sortWords kept))

/-- Does `pat` occur at the head of the text? -/
def startsWithPat : List Char → List Char → Bool
  | [], _ => true
  | _ :: _, [] => false
  | p :: ps, c :: cs => p == c && startsWithPat ps cs

/-- Fuelled engine behind `pyReplace`; the fuel is the text length, which never
runs out because every step consumes at least one character. -/
def replaceAux (pat rep : List Char) : Nat → List Char → List Char
  | _, [] => []
  | 0, l => l
  | fuel + 1, c :: cs =>
    if startsWithPat pat (c :: cs) then
      rep ++ replaceAux pat rep fuel (List.drop (pat.length - 1) cs)
    else
      c :: replaceAux pat rep fuel cs

/-- Model of Python `str.replace` for a nonempty pattern: replace all
non-overlapping occurrences, scanning left to right and continuing after each
replacement.  (Every pattern in the synonym map is nonempty.) -/
def pyReplace (s pat rep : String) : String :=
  if pat.data.isEmpty then s
  else String.mk (replaceAux pat.data rep.data s.data.length s.data)

/-- The synonym dictionary of `CacheManager.apply_synonyms`, in Python dict
insertion order (Python 3.7+ dicts iterate in insertion order). -/
def synonym_map : List (String × String) :=
  [("whey", "protein"),
   ("creatine monohydrate", "creatine"),
   ("hiit", "high intensity interval training"),
   ("weights", "resistance training"),
   ("cardio", "cardiovascular exercise"),
   ("supplements", "supplementation"),
   ("muscle", "muscles"),
   ("strength", "strength training")]

/-- Embedding of `CacheManager.apply_synonyms`: lowercase, then apply each
substring replacement of the dictionary in order. -/
def apply_synonyms (query : String) : String :=
  synonym_map.foldl (fun r p => pyReplace r p.1 p.2) (pyLower query)

/-- UTF-8 bytes of one character; agrees with Python `str.encode()`. -/
def utf8Bytes (c : Char) : List Nat :=
  let n := c.toNat
  if n < 128 then [n]
  else if n < 2048 then [192 + n / 64, 128 + n % 64]
  else if n < 65536 then [224 + n / 4096, 128 + (n / 64) % 64, 128 + n % 64]
  else [240 + n / 262144, 128 + (n / 4096) % 64, 128 + (n / 64) % 64, 128 + n % 64]

/-- UTF-8 encoding of a string as byte values. -/
def strBytes (s : String) : List Nat := (s.data.map utf8Bytes).flatten

/-- Modulus for 32-bit arithmetic. -/
def mask32 : Nat := 4294967296

/-- Left rotation of a 32-bit value. -/
def rotl32 (x s : Nat) : Nat := ((x <<< s) ||| (x >>> (32 - s))) % mask32

/-- The MD5 sine-derived constant table (RFC 1321). -/
def md5K : List Nat :=
  [0xd76aa478, 0xe8c7b756, 0x242070db, 0xc1bdceee,
   0xf57c0faf, 0x4787c62a, 0xa8304613, 0xfd469501,
   0x698098d8, 0x8b44f7af, 0xffff5bb1, 0x895cd7be,
   0x6b901122, 0xfd987193, 0xa679438e, 0x49b40821,
   0xf61e2562, 0xc040b340, 0x265e5a51, 0xe9b6c7aa,
   0xd62f105d, 0x02441453, 0xd8a1e681, 0xe7d3fbc8,
   0x21e1cde6, 0xc33707d6, 0xf4d50d87, 0x455a14ed,
   0xa9e3e905, 0xfcefa3f8, 0x676f02d9, 0x8d2a4c8a,
   0xfffa3942, 0x8771f681, 0x6d9d6122, 0xfde5380c,
   0xa4beea44, 0x4bdecfa9, 0xf6bb4b60, 0xbebfbc70,
   0x289b7ec6, 0xeaa127fa, 0xd4ef3085, 0x04881d05,
   0xd9d4d039, 0xe6db99e5, 0x1fa27cf8, 0xc4ac5665,
   0xf4292244, 0x432aff97, 0xab9423a7, 0xfc93a039,
   0x655b59c3, 0x8f0ccc92, 0xffeff47d, 0x85845dd1,
   0x6fa87e4f, 0xfe2ce6e0, 0xa3014314, 0x4e0811a1,
   0xf7537e82, 0xbd3af235, 0x2ad7d2bb, 0xeb86d391]

/-- The MD5 per-round shift table (RFC 1321). -/
def md5S : List Nat :=
  [7, 12, 17, 22, 7, 12, 17, 22, 7, 12, 17, 22, 7, 12, 17, 22,
   5, 9, 14, 20, 5, 9, 14, 20, 5, 9, 14, 20, 5, 9, 14, 20,
   4, 11, 16, 23, 4, 11, 16, 23, 4, 11, 16, 23, 4, 11, 16, 23,
   6, 10, 15, 21, 6, 10, 15, 21, 6, 10, 15, 21, 6, 10, 15, 21]

/-- The MD5 round mixing function; arguments below `mask32`. -/
def md5F (i b c d : Nat) : Nat :=
  if i < 16 then (b &&& c) ||| ((b ^^^ 4294967295) &&& d)
  else if i < 32 then (d &&& b) ||| ((d ^^^ 4294967295) &&& c)
  else if i < 48 then b ^^^ c ^^^ d
  else c ^^^ (b ||| (d ^^^ 4294967295))

/-- The MD5 message-word index schedule. -/
def md5G (i : Nat) : Nat :=
  if i < 16 then i
  else if i < 32 then (5 * i + 1) % 16
  else if i < 48 then (3 * i + 5) % 16
  else (7 * i) % 16

/-- Little-endian 32-bit word `j` of a 64-byte block. -/
def leWord (block : List Nat) (j : Nat) : Nat :=
  block.getD (4 * j) 0 + 256 * block.getD (4 * j + 1) 0 +
    65536 * block.getD (4 * j + 2) 0 + 16777216 * block.getD (4 * j + 3) 0

/-- One MD5 round (state rotation included). -/
def md5Round (block : List Nat) (st : Nat × Nat × Nat × Nat) (i : Nat) :
    Nat × Nat × Nat × Nat :=
  let a := st.1
  let b := st.2.1
  let c := st.2.2.1
  let d := st.2.2.2
  let f := (md5F i b c d + a + md5K.getD i 0 + leWord block (md5G i)) % mask32
  (d, (b + rotl32 f (md5S.getD i 0)) % mask32, b, c)

/-- Process one 64-byte block. -/
def md5Block (st : Nat × Nat × Nat × Nat) (block : List Nat) :
    Nat × Nat × Nat × Nat :=
  let r := (List.range 64).foldl (md5Round block) st
  ((st.1 + r.1) % mask32, (st.2.1 + r.2.1) % mask32,
   (st.2.2.1 + r.2.2.1) % mask32, (st.2.2.2 + r.2.2.2) % mask32)

/-- MD5 padding: `0x80`, zeros to 56 mod 64, then the bit length little-endian. -/
def md5pad (msg : List Nat) : List Nat :=
  let len := msg.length
  let k := (120 - (len + 1) % 64) % 64
  msg ++ 128 :: List.replicate k 0 ++
    [(8 * len) % 256, (8 * len >>> 8) % 256, (8 * len >>> 16) % 256,
     (8 * len >>> 24) % 256, (8 * len >>> 32) % 256, (8 * len >>> 40) % 256,
     (8 * len >>> 48) % 256, (8 * len >>> 56) % 256]

/-- Fuelled 64-byte chunking; fuel bounds the number of chunks. -/
def chunksAux : Nat → List Nat → List (List Nat)
  | 0, _ => []
  | _, [] => []
  | fuel + 1, l => l.take 64 :: chunksAux fuel (l.drop 64)

/-- Split a byte list into 64-byte chunks. -/
def chunks64 (l : List Nat) : List (List Nat) := chunksAux l.length l

/-- Little-endian serialization of a 32-bit word. -/
def wordLE4 (w : Nat) : List Nat :=
  [w % 256, (w >>> 8) % 256, (w >>> 16) % 256, (w >>> 24) % 256]

/-- Lowercase hex digit. -/
def hexDigitChar (n : Nat) : Char :=
  if n < 10 then Char.ofNat (48 + n) else Char.ofNat (87 + n)

/-- Two lowercase hex characters of one byte. -/
def byteHexChars (b : Nat) : List Char := [hexDigitChar (b / 16), hexDigitChar (b % 16)]

/-- MD5 hex digest of a byte list (RFC 1321), lowercase, as Python
`hashlib.md5(...).hexdigest()` produces. -/
def md5hex (msg : List Nat) : String :=
  let st := (chunks64 (md5pad msg)).foldl md5Block
    (0x67452301, 0xefcdab89, 0x98badcfe, 0x10325476)
  String.mk
    (((wordLE4 st.1 ++ wordLE4 st.2.1 ++ wordLE4 st.2.2.1 ++ wordLE4 st.2.2.2).map
        byteHexChars).flatten)

/-- Embedding of `CacheManager.calculate_query_hash`: hex MD5 of UTF-8 bytes. -/
def calculate_query_hash (normalized_query : String) : String :=
  md5hex (strBytes normalized_query)

/-- Row of the `user_queries` table. -/
structure UserQuery where
  query_id : Nat
  query_text : String
  normalized_text : String
  query_hash : String
  cache_hit : Bool
  timestamp : Int
  deriving Repr, DecidableEq

/-- Row of the `cached_responses` table.  The INSERT in `store_in_cache` does
not list `times_served`/`last_served`; the table DDL is not in the repository,
so their defaults are modelled from the spec's CachedResponse lifecycle: the
times-served counter starts at zero, last-served starts at creation time. -/
structure CachedResponse where
  response_id : Nat
  query_id : Nat
  response_text : String
  response_hash : String
  times_served : Nat
  last_served : Int
  timestamp : Int
  deriving Repr, DecidableEq

/-- Row of the `response_citations` table. -/
structure Citation where
  response_id : Nat
  paper_id : Nat
  citation_order : Nat
  relevance_rank : Nat
  deriving Repr, DecidableEq

/-- Row of the `research_papers` table (the columns the cache layer touches). -/
structure Paper where
  paper_id : Nat
  pmid : String
  title : String
  abstract : String
  times_used : Nat
  last_accessed : Int
  deriving Repr, DecidableEq

/-- The database state threaded through the operations.  `reachable` models
whether the persistent store can be contacted: when it is false, every
`cursor.execute` raises, which the model renders as `Except.error`.
Timestamps (`now`, `last_served`, ...) are integer day counts. -/
structure DBState where
  reachable : Bool
  now : Int
  queries : List UserQuery
  responses : List CachedResponse
  citations : List Citation
  papers : List Paper
  nextQueryId : Nat
  nextResponseId : Nat
  deriving Repr, DecidableEq

/-- A cache hit as returned to the caller: response id, text, similarity. -/
structure Hit where
  response_id : Nat
  response_text : String
  similarity : ℚ
  deriving Repr, DecidableEq

/-- The storage-layer failure (psycopg2 OperationalError and kin). -/
inductive DBErr where
  | storageDown
  deriving Repr, DecidableEq

/-- Decidable equality of operation results, so witnesses can be checked by
evaluation. -/
instance exceptDecEq {ε α : Type} [DecidableEq ε] [DecidableEq α] :
    DecidableEq (Except ε α) := fun x y =>
  match x, y with
  | .ok a, .ok b =>
    if h : a = b then .isTrue (by rw [h]) else .isFalse (fun hc => h (Except.ok.inj hc))
  | .error a, .error b =>
    if h : a = b then .isTrue (by rw [h]) else .isFalse (fun hc => h (Except.error.inj hc))
  | .ok _, .error _ => .isFalse (fun hc => Except.noConfusion hc)
  | .error _, .ok _ => .isFalse (fun hc => Except.noConfusion hc)

/-- The JOIN of `user_queries` with `cached_responses` on `query_id`, in table
order (SQL leaves the order of an unordered result set unspecified). -/
def joinRows (qs : List UserQuery) (rs : List CachedResponse) :
    List (UserQuery × CachedResponse) :=
  (qs.map (fun uq =>
    (rs.filter (fun cr => cr.query_id == uq.query_id)).map
      (fun cr => (uq, cr)))).flatten

/-- The JOIN of the state's two tables. -/
def joinedRows (s : DBState) : List (UserQuery × CachedResponse) :=
  joinRows s.queries s.responses

/-- The UPDATE of the fuzzy branch, per row: the row with the matched
response id gets `times_served + 1` and `last_served = CURRENT_TIMESTAMP`;
every other row (and every other field) is untouched. -/
def bumpRow (rid : Nat) (now : Int) (cr : CachedResponse) : CachedResponse :=
  if cr.response_id == rid then
    { cr with times_served := cr.times_served + 1, last_served := now }
  else cr

/-- First row of maximal score, modelling ORDER BY score DESC LIMIT 1 (the
order among tied rows is unspecified in SQL; the model takes the earliest). -/
def bestCandidate (score : UserQuery × CachedResponse → ℚ) :
    List (UserQuery × CachedResponse) → Option (UserQuery × CachedResponse)
  | [] => none
  | r :: rs =>
    match bestCandidate score rs with
    | none => some r
    | some b => if score r < score b then some b else some r

/-- Embedding of `CacheManager.smart_cache_lookup`.  `sim` is the external
PostgreSQL `similarity` function (pg_trgm), passed as a parameter; scores are
rationals standing for its float values.  Exactly as in the source: the exact
fingerprint match returns immediately without touching usage counters, and only
the fuzzy branch (score strictly above the threshold) increments
`times_served` and refreshes `last_served`. -/
def smart_cache_lookup (sim : String → String → ℚ) (s : DBState) (query : String)
    (threshold : ℚ) : Except DBErr (Option Hit × DBState) :=
  if s.reachable then
    let normalized := normalize_query query
    let nws := apply_synonyms normalized
    let qh := calculate_query_hash nws
    match (joinedRows s).find? (fun r => r.1.query_hash == qh) with
    | some r => .ok (some ⟨r.2.response_id, r.2.response_text, 1⟩, s)
    | none =>
      let cands := (joinedRows s).filter (fun r => threshold < sim r.1.normalized_text nws)
      match bestCandidate (fun r => sim r.1.normalized_text nws) cands with
      | some r =>
        let s2 := { s with responses := s.responses.map (bumpRow r.2.response_id s.now) }
        .ok (some ⟨r.2.response_id, r.2.response_text, sim r.1.normalized_text nws⟩, s2)
      | none => .ok (none, s)
  else .error .storageDown

/-- Positions paired with elements, starting the count at `n`
(Python `enumerate(l, n)`). -/
def enumFrom (n : Nat) : List Nat → List (Nat × Nat)
  | [] => []
  | x :: xs => (n, x) :: enumFrom (n + 1) xs

/-- The citation rows inserted by `store_in_cache`: the first five paper ids,
with `citation_order` and `relevance_rank` both the 1-based position. -/
def citationRows (rid : Nat) (papers_used : List Nat) : List Citation :=
  (enumFrom 1 (papers_used.take 5)).map (fun p => ⟨rid, p.2, p.1, p.1⟩)

/-- Embedding of `CacheManager.store_in_cache`: unconditionally INSERTs a fresh
`user_queries` row (with the synonym-substituted normalized text and its hash),
a fresh `cached_responses` row, and one citation row per paper id among the
first five, then returns the new response id.  There is no duplicate check. -/
def store_in_cache (s : DBState) (query response : String) (papers_used : List Nat) :
    Except DBErr (Nat × DBState) :=
  if s.reachable then
    let nws := apply_synonyms (normalize_query query)
    let qh := calculate_query_hash nws
    let qid := s.nextQueryId
    let uq : UserQuery := ⟨qid, query, nws, qh, false, s.now⟩
    let rid := s.nextResponseId
    let cr : CachedResponse := ⟨rid, qid, response, md5hex (strBytes response), 0, s.now, s.now⟩
    .ok (rid, { s with
      queries := s.queries ++ [uq],
      responses := s.responses ++ [cr],
      citations := s.citations ++ citationRows rid papers_used,
      nextQueryId := qid + 1,
      nextResponseId := rid + 1 })
  else .error .storageDown

/-- Paper ids appearing in `response_citations` (the NOT IN subquery). -/
def citedPaperIds (s : DBState) : List Nat := s.citations.map (·.paper_id)

/-- Ordered insert for `sortPapersDesc`. -/
def insertPaperDesc (p : Paper) : List Paper → List Paper
  | [] => [p]
  | q :: qs => if q.times_used < p.times_used then p :: q :: qs else q :: insertPaperDesc p qs

/-- Stable descending sort by `times_used`, modelling ORDER BY times_used DESC
(order among tied rows unspecified in SQL; the model keeps table order). -/
def sortPapersDesc : List Paper → List Paper
  | [] => []
  | p :: ps => insertPaperDesc p (sortPapersDesc ps)

/-- Embedding of `AutoCacheManager.check_auto_cache_eligibility`: papers with
`times_used >= 20` and no citation row, ordered by `times_used` descending,
LIMIT 10. -/
def check_auto_cache_eligibility (s : DBState) : Except DBErr (List Paper) :=
  if s.reachable then
    .ok ((sortPapersDesc (s.papers.filter (fun p =>
      20 ≤ p.times_used && !((citedPaperIds s).contains p.paper_id)))).take 10)
  else .error .storageDown

/-- Embedding of `AutoCacheManager.trigger_auto_cache`: look the paper up,
build the synthetic query and response (the response literal reproduces the
Python triple-quoted f-string, embedded newlines and indentation included,
with `abstract[:200]` as the first 200 characters), and store them citing that
single paper. -/
def trigger_auto_cache (s : DBState) (paper_id : Nat) : Except DBErr (Bool × DBState) :=
  if s.reachable then
    match s.papers.find? (fun p => p.paper_id == paper_id) with
    | some paper =>
      let auto_query := "What does research say about " ++ pyLower paper.title
      let auto_response :=
        "Based on research (PMID: " ++ paper.pmid ++ "), \n            this study examined "
          ++ paper.title ++ ". The findings suggest that \n            "
          ++ String.mk (paper.abstract.data.take 200)
          ++ "... This research provides evidence for \n            the effectiveness of the intervention studied."
      match store_in_cache s auto_query auto_response [paper_id] with
      | .ok pr => .ok (true, pr.2)
      | .error e => .error e
    | none => .ok (false, s)
  else .error .storageDown

/-- Embedding of `AutoCacheManager.evict_stale_cache` with age parameter
`days_old` (source default 50): delete responses with `last_served` strictly
before the cutoff and `times_served < 5`, then delete papers last accessed
strictly before the cutoff with `times_used < 10` and no remaining citation.
Returns the two deletion counts.  Citation rows of a deleted response are
removed with it — modelled from the spec: the table DDL is not in the
repository, and the spec states Citations are deleted when the owning response
is deleted (cascade). -/
def evict_stale_cache (s : DBState) (days_old : Int) :
    Except DBErr ((Nat × Nat) × DBState) :=
  if s.reachable then
    let cutoff := s.now - days_old
    let stale := s.responses.filter (fun cr =>
      cr.last_served < cutoff && cr.times_served < 5)
    let staleIds := stale.map (·.response_id)
    let keptResponses := s.responses.filter (fun cr => !(staleIds.contains cr.response_id))
    let keptCitations := s.citations.filter (fun c => !(staleIds.contains c.response_id))
    let citedAfter := keptCitations.map (·.paper_id)
    let deadPapers := s.papers.filter (fun p =>
      p.last_accessed < cutoff && p.times_used < 10 && !(citedAfter.contains p.paper_id))
    let deadIds := deadPapers.map (·.paper_id)
    let keptPapers := s.papers.filter (fun p => !(deadIds.contains p.paper_id))
    .ok ((stale.length, deadPapers.length),
      { s with responses := keptResponses, citations := keptCitations, papers := keptPapers })
  else .error .storageDown

/-- Rows of the exact-fingerprint join filtered to one hash value: the
CachedResponse rows that exist "for a fingerprint". -/
def responsesForHash (s : DBState) (h : String) : List (UserQuery × CachedResponse) :=
  (joinedRows s).filter (fun x => x.1.query_hash == h)

/-- Well-formed ids, as the serial PostgreSQL columns guarantee: every stored
query id is below the next id to be handed out. -/
def wfIds (s : DBState) : Prop :=
  (∀ uq ∈ s.queries, uq.query_id < s.nextQueryId) ∧
  (∀ cr ∈ s.responses, cr.query_id < s.nextQueryId)

/-- The input class of claim C9: after lowercasing and punctuation stripping,
every whitespace-separated token is a stop word (this includes inputs made of
punctuation and whitespace only, whose token list is empty). -/
def onlyStopInput (q : String) : Bool :=
  (pyWords ((pyLower q).data.filter (fun c => isWordChar c || isSpaceChar c))).all
    (fun w => stop_words.contains w)

/-- Modelled from the spec (refinement comparison definition, not from the
source): the normalization order claim C3 asserts — synonym substitution on
the lowercased, unsorted string first, the final normalization stage
(punctuation stripping, stop-word removal, token sorting, joining) second.
Since `apply_synonyms` lowercases and emits lowercase text, this is exactly
`normalize_query` after `apply_synonyms`. -/
def spec_order_key_text (query : String) : String :=
  normalize_query (apply_synonyms query)

/-- The key text the code actually feeds to the fingerprinter in both
`smart_cache_lookup` and `store_in_cache`: synonyms applied to the output of
`normalize_query`. -/
def code_order_key_text (query : String) : String :=
  apply_synonyms (normalize_query query)

/-- Modelled from the spec words of claim C8 (refinement comparison
definition): the documents whose usage count strictly exceeds the high-traffic
threshold of 20 and that lack any citation. -/
def claimed_promotion_set (s : DBState) : List Paper :=
  s.papers.filter (fun p => 20 < p.times_used && !((citedPaperIds s).contains p.paper_id))

/-- Empty reachable database fixture. -/
def dbEmpty : DBState := ⟨true, 100, [], [], [], [], 0, 0⟩

/-- Unreachable database fixture. -/
def dbDown : DBState := ⟨false, 0, [], [], [], [], 0, 0⟩

/-- The rational 7/10 (the default similarity threshold), built so that its
fields evaluate directly. -/
def ratSevenTenths : ℚ := ⟨7, 10, by decide, by decide⟩

/-- A similarity oracle that scores every pair at exactly 7/10, the default
threshold. -/
def simConst : String → String → ℚ := fun _ _ => ratSevenTenths

/-- Fixture with one stored query/response pair whose fingerprint (`"nothash"`)
cannot equal any MD5 hex digest computed by a lookup. -/
def dbOneCand : DBState :=
  ⟨true, 0, [⟨0, "stored", "stored query", "nothash", false, 0⟩],
   [⟨0, 0, "resp", "rh", 0, 0, 0⟩], [], [], 1, 1⟩

/-- Fixture for the eviction boundary: response 0 has `times_served = 3` and
`last_served` 1000 days in the past, response 1 has `times_served = 100` at
the same age. -/
def dbEvict : DBState :=
  ⟨true, 100, [], [⟨0, 0, "r0", "h0", 3, -900, 0⟩, ⟨1, 1, "r1", "h1", 100, -900, 0⟩],
   [], [], 2, 2⟩

/-- Fixture for the citation-safety invariant: a stale response 0 cites paper
2, a live response 1 cites paper 1; both papers are old and rarely used. -/
def dbCite : DBState :=
  ⟨true, 100,
   [],
   [⟨0, 0, "r0", "h0", 0, -900, 0⟩, ⟨1, 1, "r1", "h1", 9, 99, 0⟩],
   [⟨0, 2, 1, 1⟩, ⟨1, 1, 1, 1⟩],
   [⟨1, "pm1", "t1", "a1", 0, -900⟩, ⟨2, "pm2", "t2", "a2", 0, -900⟩],
   2, 2⟩

/-- A paper with `times_used` exactly 20 and no citation. -/
def dbPromoPaper : Paper := ⟨1, "pm1", "some title", "some abstract", 20, 0⟩

/-- Fixture for the promotion boundary: a single paper with `times_used = 20`
and no citation. -/
def dbPromo : DBState :=
  ⟨true, 100, [], [], [], [dbPromoPaper], 0, 0⟩

/-- Project the post-state out of a successful operation (fixtures only). -/
def okState {α : Type} (fallback : DBState) : Except DBErr (α × DBState) → DBState
  | .ok p => p.2
  | .error _ => fallback

/-- State after storing `("q", "r")` once in the empty database. -/
def storeOnce : DBState := okState dbEmpty (store_in_cache dbEmpty "q" "r" [])

/-- State after storing `("q", "r")` twice in the empty database. -/
def storeTwiceState : DBState := okState dbEmpty (store_in_cache storeOnce "q" "r" [])

/-- State after the eviction sweep on `dbCite`. -/
def dbCiteAfter : DBState := okState dbCite (evict_stale_cache dbCite 50)

/-- State after the eviction sweep on `dbEvict`. -/
def dbEvictAfter : DBState := okState dbEvict (evict_stale_cache dbEvict 50)

/-- State after storing with seven cited papers in the empty database. -/
def storeSeven : DBState :=
  okState dbEmpty (store_in_cache dbEmpty "q" "r" [10, 20, 30, 40, 50, 60, 70])

/-- State after `trigger_auto_cache` for paper 1 of `dbPromo`. -/
def dbPromoAfter : DBState := okState dbPromo (trigger_auto_cache dbPromo 1)

/-!  Helper lemmas. -/

/-- Words that all pass a Boolean test leave nothing for the complementary
filter. -/
theorem stopword_filter_eq_nil (ws : List (List Char))
    (h : ws.all (fun w => stop_words.contains w) = true) :
    ws.filter (fun w => !(stop_words.contains w)) = [] := by
  rw [List.filter_eq_nil_iff]
  intro w hw
  have hcw := List.all_eq_true.mp h w hw
  simp only at hcw ⊢
  rw [hcw]
  decide

/-- Second components of an enumeration are the original list. -/
theorem enumFrom_map_snd (n : Nat) (l : List Nat) :
    (enumFrom n l).map (fun p => p.2) = l := by
  induction l generalizing n with
  | nil => rfl
  | cons x xs ih => simp [enumFrom, ih]

/-- First components of an enumeration count up from the start value. -/
theorem enumFrom_map_fst (n : Nat) (l : List Nat) :
    (enumFrom n l).map (fun p => p.1) = List.range' n l.length := by
  induction l generalizing n with
  | nil => rfl
  | cons x xs ih => simp [enumFrom, ih, List.range'_succ]

/-- Paper ids of the citation rows built from an enumeration. -/
theorem enumCite_map_paper (k n : Nat) (l : List Nat) :
    ((enumFrom n l).map (fun p => (⟨k, p.2, p.1, p.1⟩ : Citation))).map
      (fun c => c.paper_id) = l := by
  induction l generalizing n with
  | nil => rfl
  | cons x xs ih => simp [enumFrom, ih]

/-- Citation orders of the citation rows built from an enumeration. -/
theorem enumCite_map_order (k n : Nat) (l : List Nat) :
    ((enumFrom n l).map (fun p => (⟨k, p.2, p.1, p.1⟩ : Citation))).map
      (fun c => c.citation_order) = List.range' n l.length := by
  induction l generalizing n with
  | nil => rfl
  | cons x xs ih => simp [enumFrom, ih, List.range'_succ]

/-- Inversion of a successful `store_in_cache`: the store must be reachable,
the returned key is the next response id, and the post-state appends exactly
one query row, one response row and the citation rows. -/
theorem store_step (s : DBState) (q r : String) (papers : List Nat) (k : Nat)
    (s2 : DBState) (h : store_in_cache s q r papers = .ok (k, s2)) :
    s.reachable = true ∧ k = s.nextResponseId ∧
    s2 = { s with
      queries := s.queries ++ [⟨s.nextQueryId, q, apply_synonyms (normalize_query q),
        calculate_query_hash (apply_synonyms (normalize_query q)), false, s.now⟩],
      responses := s.responses ++ [⟨s.nextResponseId, s.nextQueryId, r,
        md5hex (strBytes r), 0, s.now, s.now⟩],
      citations := s.citations ++ citationRows s.nextResponseId papers,
      nextQueryId := s.nextQueryId + 1,
      nextResponseId := s.nextResponseId + 1 } := by
  by_cases hre : s.reachable = true
  · simp only [store_in_cache, hre, if_true, Except.ok.injEq, Prod.mk.injEq] at h
    refine ⟨hre, h.1.symm, ?_⟩
    rw [hre]
    exact h.2.symm
  · simp [store_in_cache, hre] at h

/-- Appending a fresh query/response pair appends one row to the JOIN. -/
theorem joinRows_snoc (qs : List UserQuery) (rs : List CachedResponse)
    (uq : UserQuery) (cr : CachedResponse)
    (hq : ∀ u ∈ qs, u.query_id ≠ uq.query_id)
    (hr : ∀ c ∈ rs, c.query_id ≠ uq.query_id)
    (hcr : cr.query_id = uq.query_id) :
    joinRows (qs ++ [uq]) (rs ++ [cr]) = joinRows qs rs ++ [(uq, cr)] := by
  unfold joinRows
  rw [List.map_append, List.flatten_append]
  have hA : qs.map (fun u =>
        ((rs ++ [cr]).filter (fun c => c.query_id == u.query_id)).map (fun c => (u, c))) =
      qs.map (fun u =>
        (rs.filter (fun c => c.query_id == u.query_id)).map (fun c => (u, c))) := by
    apply List.map_congr_left
    intro u hu
    have hf : (cr.query_id == u.query_id) = false := by
      rw [hcr]
      exact beq_eq_false_iff_ne.mpr (fun e => hq u hu e.symm)
    rw [List.filter_append]
    simp [List.filter, hf]
  rw [hA]
  congr 1
  have hrs : rs.filter (fun c => c.query_id == uq.query_id) = [] := by
    rw [List.filter_eq_nil_iff]
    intro c hc
    simp [hr c hc]
  simp [List.filter_append, hrs, hcr]

/-!  Claims. -/

/-- Claim C9: `normalize_query` is a pure total Lean function on all strings;
on every input whose tokens (after lowercasing and punctuation stripping) are
all stop words — in particular inputs consisting only of stop words,
punctuation and whitespace — the normalized result is the empty string, and
the pipeline fingerprint of that empty result is the single well-defined
32-character MD5 digest of the empty string rather than a failure. -/
theorem normalize_query_stopword_bucket (q : String) (h : onlyStopInput q = true) :
    normalize_query q = "" ∧
    calculate_query_hash (apply_synonyms (normalize_query q)) =
      "d41d8cd98f00b204e9800998ecf8427e" ∧
    (calculate_query_hash (apply_synonyms (normalize_query q))).length = 32 := by
  unfold onlyStopInput at h
  have h1 : normalize_query q = "" := by
    simp only [normalize_query]
    rw [stopword_filter_eq_nil _ h]
    rfl
  refine ⟨h1, ?_, ?_⟩ <;> rw [h1] <;> decide

/-- Witness for C9 at a concrete all-stop-word input. -/
theorem normalize_query_stopword_bucket_witness :
    onlyStopInput "What is the of???" = true ∧
    normalize_query "What is the of???" = "" ∧
    calculate_query_hash (apply_synonyms (normalize_query "What is the of???")) =
      "d41d8cd98f00b204e9800998ecf8427e" ∧
    (calculate_query_hash (apply_synonyms (normalize_query "What is the of???"))).length = 32 :=
  ⟨by decide, normalize_query_stopword_bucket "What is the of???" (by decide)⟩

/-- Claim C10: a successful `store_in_cache` appends citation rows for at most
the first five supplied paper ids; the stored ids are exactly `papers.take 5`
(ids beyond the fifth are silently dropped), and `citation_order` and
`relevance_rank` both run 1, 2, ... in list order. -/
theorem store_in_cache_citations (s : DBState) (q r : String) (papers : List Nat)
    (k : Nat) (s2 : DBState) (h : store_in_cache s q r papers = .ok (k, s2)) :
    s2.citations = s.citations ++ citationRows k papers ∧
    (citationRows k papers).map (fun c => c.paper_id) = papers.take 5 ∧
    (citationRows k papers).map (fun c => c.citation_order) =
      List.range' 1 (min 5 papers.length) ∧
    ∀ c ∈ citationRows k papers, c.response_id = k ∧ c.citation_order = c.relevance_rank := by
  obtain ⟨hre, hk, hs⟩ := store_step s q r papers k s2 h
  refine ⟨?_, ?_, ?_, ?_⟩
  · rw [hs, hk]
  · simp only [citationRows]
    exact enumCite_map_paper k 1 (papers.take 5)
  · simp only [citationRows]
    rw [enumCite_map_order k 1 (papers.take 5), List.length_take]
  · intro c hc
    simp only [citationRows, List.mem_map] at hc
    obtain ⟨p, hp, rfl⟩ := hc
    exact ⟨rfl, rfl⟩

/-- Witness for C10: storing with seven cited papers keeps the first five. -/
theorem store_in_cache_citations_witness :
    storeSeven.citations = [] ++ citationRows 0 [10, 20, 30, 40, 50, 60, 70] ∧
    (citationRows 0 [10, 20, 30, 40, 50, 60, 70]).map (fun c => c.paper_id) =
      [10, 20, 30, 40, 50, 60, 70].take 5 ∧
    (citationRows 0 [10, 20, 30, 40, 50, 60, 70]).map (fun c => c.citation_order) =
      List.range' 1 (min 5 ([10, 20, 30, 40, 50, 60, 70] : List Nat).length) ∧
    ∀ c ∈ citationRows 0 [10, 20, 30, 40, 50, 60, 70],
      c.response_id = 0 ∧ c.citation_order = c.relevance_rank :=
  store_in_cache_citations dbEmpty "q" "r" [10, 20, 30, 40, 50, 60, 70] 0 storeSeven
    (by decide)

/-- Counterexample to claim C1 as stated: storing the identical raw query and
response text twice does not return the same key (it returns 0 then 1), and
afterwards two — not one — CachedResponse rows exist for the query's
fingerprint. -/
theorem store_in_cache_not_idempotent_cex :
    store_in_cache dbEmpty "q" "r" [] = .ok (0, storeOnce) ∧
    store_in_cache storeOnce "q" "r" [] = .ok (1, storeTwiceState) ∧
    (0 : Nat) ≠ 1 ∧
    (responsesForHash storeTwiceState
      (calculate_query_hash (apply_synonyms (normalize_query "q")))).length = 2 := by
  exact ⟨by decide, by decide, by decide, by decide⟩

/-- Claim C1 amended: `store_in_cache` is not idempotent — it performs no
duplicate check.  Two calls with the identical raw query and response text
return two distinct fresh keys, and exactly two more CachedResponse rows exist
for that query's fingerprint afterwards. -/
theorem store_in_cache_duplicates (s : DBState) (q r : String) (papers : List Nat)
    (k1 k2 : Nat) (s1 s2 : DBState) (hwf : wfIds s)
    (h1 : store_in_cache s q r papers = .ok (k1, s1))
    (h2 : store_in_cache s1 q r papers = .ok (k2, s2)) :
    k1 ≠ k2 ∧
    (responsesForHash s2 (calculate_query_hash (apply_synonyms (normalize_query q)))).length =
      (responsesForHash s (calculate_query_hash (apply_synonyms (normalize_query q)))).length
        + 2 := by
  obtain ⟨hre, hk1, hs1⟩ := store_step s q r papers k1 s1 h1
  obtain ⟨hre1, hk2, hs2⟩ := store_step s1 q r papers k2 s2 h2
  subst hs1
  simp only at hk2
  constructor
  · omega
  · subst hs2
    simp only [responsesForHash, joinedRows]
    rw [joinRows_snoc _ _ _ _ ?hq ?hr rfl]
    case hq =>
      intro u hu
      show u.query_id ≠ s.nextQueryId + 1
      rcases List.mem_append.mp hu with hu | hu
      · have := hwf.1 u hu; omega
      · rw [List.mem_singleton] at hu
        subst hu; simp
    case hr =>
      intro c hc
      show c.query_id ≠ s.nextQueryId + 1
      rcases List.mem_append.mp hc with hc | hc
      · have := hwf.2 c hc; omega
      · rw [List.mem_singleton] at hc
        subst hc; simp
    rw [joinRows_snoc _ _ _ _
        (fun u hu => Nat.ne_of_lt (hwf.1 u hu))
        (fun c hc => Nat.ne_of_lt (hwf.2 c hc)) rfl]
    simp [List.filter_append]

/-- Witness for the amended C1 on the empty database. -/
theorem store_in_cache_duplicates_witness :
    (0 : Nat) ≠ 1 ∧
    (responsesForHash storeTwiceState
      (calculate_query_hash (apply_synonyms (normalize_query "q")))).length =
      (responsesForHash dbEmpty
        (calculate_query_hash (apply_synonyms (normalize_query "q")))).length + 2 :=
  store_in_cache_duplicates dbEmpty "q" "r" [] 0 1 storeOnce storeTwiceState
    ⟨by decide, by decide⟩ (by decide) (by decide)

/-- A search that fails on the first list continues in the second. -/
theorem find?_append_none {α : Type} (p : α → Bool) (l1 l2 : List α)
    (h : l1.find? p = none) : (l1 ++ l2).find? p = l2.find? p := by
  induction l1 with
  | nil => rfl
  | cons a t ih =>
    cases hpa : p a with
    | true => rw [List.find?_cons_of_pos t hpa] at h; cases h
    | false =>
      have hna : ¬ p a = true := by rw [hpa]; simp
      rw [List.find?_cons_of_neg t hna] at h
      rw [List.cons_append, List.find?_cons_of_neg _ hna]
      exact ih h

/-- A best candidate is one of the candidates. -/
theorem bestCandidate_mem (f : UserQuery × CachedResponse → ℚ)
    (l : List (UserQuery × CachedResponse)) (r : UserQuery × CachedResponse)
    (h : bestCandidate f l = some r) : r ∈ l := by
  induction l generalizing r with
  | nil => simp [bestCandidate] at h
  | cons a t ih =>
    cases hbt : bestCandidate f t with
    | none =>
      simp only [bestCandidate, hbt] at h
      injection h with h
      subst h
      exact List.mem_cons_self a t
    | some b =>
      simp only [bestCandidate, hbt] at h
      by_cases hlt : f a < f b
      · rw [if_pos hlt] at h
        injection h with h
        subst h
        exact List.mem_cons_of_mem a (ih b hbt)
      · rw [if_neg hlt] at h
        injection h with h
        subst h
        exact List.mem_cons_self a t

/-- Counterexample to claim C3 as stated: the code applies `apply_synonyms` to
the output of `normalize_query` (after token sorting), not before it.  Storing
the raw query `"creatine monohydrate dosage"` records normalized text
`"creatine dosage monohydrate"` — sorting separated the multi-word phrase
`"creatine monohydrate"` before substitution, so the synonym did not fire —
while the spec's claimed order would produce `"creatine dosage"`. -/
theorem synonyms_order_cex :
    (store_in_cache dbEmpty "creatine monohydrate dosage" "resp" []).toOption.map
        (fun p => p.2.queries.map (fun uq => uq.normalized_text)) =
      some ["creatine dosage monohydrate"] ∧
    spec_order_key_text "creatine monohydrate dosage" = "creatine dosage" ∧
    code_order_key_text "creatine monohydrate dosage" ≠
      spec_order_key_text "creatine monohydrate dosage" := by
  exact ⟨by decide, by decide, by decide⟩

/-- Claim C3 amended: in the pipeline used by both lookup and store, synonym
substitution runs AFTER the final normalization stage (stop-word removal,
token sorting, joining), not before it: the stored row's normalized text and
fingerprint are those of `apply_synonyms (normalize_query q)`, and
`smart_cache_lookup` derives its exact-match key the same way, so storing and
then looking up the same raw query hits by exact fingerprint match. -/
theorem synonyms_after_normalization (s : DBState) (q r : String) (papers : List Nat)
    (sim : String → String → ℚ) (t : ℚ) (k : Nat) (s2 : DBState)
    (hwf : wfIds s)
    (hnew : responsesForHash s (calculate_query_hash (code_order_key_text q)) = [])
    (h : store_in_cache s q r papers = .ok (k, s2)) :
    (∃ uq : UserQuery, s2.queries = s.queries ++ [uq] ∧ uq.query_text = q ∧
      uq.normalized_text = code_order_key_text q ∧
      uq.query_hash = calculate_query_hash (code_order_key_text q)) ∧
    smart_cache_lookup sim s2 q t = .ok (some ⟨k, r, 1⟩, s2) := by
  obtain ⟨hre, hk, hs⟩ := store_step s q r papers k s2 h
  constructor
  · refine ⟨⟨s.nextQueryId, q, code_order_key_text q,
      calculate_query_hash (code_order_key_text q), false, s.now⟩, ?_, rfl, rfl, rfl⟩
    rw [hs]
    simp only [code_order_key_text]
  · have hjoin : joinedRows s2 =
        joinedRows s ++ [(⟨s.nextQueryId, q, apply_synonyms (normalize_query q),
          calculate_query_hash (apply_synonyms (normalize_query q)), false, s.now⟩,
          ⟨s.nextResponseId, s.nextQueryId, r, md5hex (strBytes r), 0, s.now, s.now⟩)] := by
      rw [hs]
      simp only [joinedRows]
      exact joinRows_snoc _ _ _ _
        (fun u hu => Nat.ne_of_lt (hwf.1 u hu))
        (fun c hc => Nat.ne_of_lt (hwf.2 c hc)) rfl
    have hfind : (joinedRows s).find? (fun x => x.1.query_hash ==
        calculate_query_hash (apply_synonyms (normalize_query q))) = none := by
      simp only [responsesForHash, code_order_key_text] at hnew
      rw [List.find?_eq_none]
      intro x hx
      exact List.filter_eq_nil_iff.mp hnew x hx
    have hre2 : s2.reachable = true := by rw [hs]; exact hre
    simp only [smart_cache_lookup, hre2, if_true]
    rw [hjoin, find?_append_none _ _ _ hfind]
    rw [List.find?_cons_of_pos _ (by simp)]
    rw [hk]

/-- Witness for the amended C3 on the empty database. -/
theorem synonyms_after_normalization_witness :
    (∃ uq : UserQuery, storeOnce.queries = dbEmpty.queries ++ [uq] ∧
      uq.query_text = "q" ∧
      uq.normalized_text = code_order_key_text "q" ∧
      uq.query_hash = calculate_query_hash (code_order_key_text "q")) ∧
    smart_cache_lookup simConst storeOnce "q" ((7 : ℚ) / 10) =
      .ok (some ⟨0, "r", 1⟩, storeOnce) :=
  synonyms_after_normalization dbEmpty "q" "r" [] simConst ((7 : ℚ) / 10) 0 storeOnce
    ⟨by decide, by decide⟩ (by decide) (by decide)

/-- Counterexample to claim C4 as stated: an exact-fingerprint hit does NOT
increment the times-served counter or update the last-served timestamp.
Looking the stored query `"q"` up again returns a hit (similarity 1) with the
state completely unchanged: the matched response still has `times_served = 0`
and `last_served` equal to its creation time. -/
theorem exact_hit_no_bump_cex :
    smart_cache_lookup simConst storeOnce "q" ((7 : ℚ) / 10) =
      .ok (some ⟨0, "r", 1⟩, storeOnce) ∧
    storeOnce.responses.map (fun cr => cr.times_served) = [0] := by
  exact ⟨by decide, by decide⟩

/-- Claim C4 amended: only the FUZZY branch of `smart_cache_lookup` mutates
usage statistics.  An exact-fingerprint hit returns the matched response with
the state unchanged; a fuzzy hit rewrites the store by `bumpRow`, which adds
one to `times_served` and sets `last_served` to the current time on the rows
with the matched response id and changes nothing else — every other row and
every other field (ids, texts, hashes, creation timestamp) is untouched, as
are the query, citation and paper tables. -/
theorem smart_cache_lookup_hit_mutation (sim : String → String → ℚ) (s : DBState)
    (q : String) (t : ℚ) (hre : s.reachable = true) :
    (∀ r0, (joinedRows s).find? (fun x => x.1.query_hash ==
        calculate_query_hash (apply_synonyms (normalize_query q))) = some r0 →
      smart_cache_lookup sim s q t =
        .ok (some ⟨r0.2.response_id, r0.2.response_text, 1⟩, s)) ∧
    ((joinedRows s).find? (fun x => x.1.query_hash ==
        calculate_query_hash (apply_synonyms (normalize_query q))) = none →
      ∀ hit s2, smart_cache_lookup sim s q t = .ok (some hit, s2) →
        s2 = { s with responses := s.responses.map (bumpRow hit.response_id s.now) }) ∧
    (∀ rid now cr, (cr.response_id == rid) = false → bumpRow rid now cr = cr) ∧
    (∀ rid now cr, (cr.response_id == rid) = true →
      bumpRow rid now cr =
        { cr with times_served := cr.times_served + 1, last_served := now }) := by
  refine ⟨?_, ?_, ?_, ?_⟩
  · intro r0 hf
    simp only [smart_cache_lookup, hre, if_true]
    rw [hf]
  · intro hf hit s2 hlk
    simp only [smart_cache_lookup, hre, if_true] at hlk
    rw [hf] at hlk
    cases hbc : bestCandidate (fun r => sim r.1.normalized_text
        (apply_synonyms (normalize_query q)))
        ((joinedRows s).filter (fun r => t < sim r.1.normalized_text
          (apply_synonyms (normalize_query q)))) with
    | none => rw [hbc] at hlk; simp at hlk
    | some r =>
      rw [hbc] at hlk
      simp only [Except.ok.injEq, Prod.mk.injEq, Option.some.injEq] at hlk
      obtain ⟨hhit, hs2⟩ := hlk
      rw [← hs2, ← hhit, hre]
  · intro rid now cr hne
    simp [bumpRow, hne]
  · intro rid now cr heq
    simp [bumpRow, heq]

/-- Witness for the amended C4: the exact-branch clause applied to the stored
`("q", "r")` entry. -/
theorem smart_cache_lookup_hit_mutation_witness :
    smart_cache_lookup simConst storeOnce "q" ((7 : ℚ) / 10) =
      .ok (some ⟨0, "r", 1⟩, storeOnce) :=
  (smart_cache_lookup_hit_mutation simConst storeOnce "q" ((7 : ℚ) / 10)
      (by decide)).1
    (⟨0, "q", "q", "7694f4a66316e53c8cdd9d9954bd611d", false, 100⟩,
     ⟨0, 0, "r", "4b43b0aee35624cd95b910189b3dc231", 0, 100, 100⟩)
    (by decide)

/-- Counterexample to claim C2 as stated: a stored candidate whose similarity
score equals the threshold exactly is REJECTED, not accepted — the SQL
predicate is `similarity > threshold`, strict.  With a similarity oracle that
scores the single stored candidate at exactly 7/10 and threshold 7/10, the
lookup reports a miss and leaves the state unchanged. -/
theorem fuzzy_threshold_at_boundary_cex :
    simConst "stored query" (apply_synonyms (normalize_query "anything")) = ratSevenTenths ∧
    smart_cache_lookup simConst dbOneCand "anything" ratSevenTenths =
      .ok (none, dbOneCand) := by
  exact ⟨by decide, by decide⟩

/-- Claim C2 amended: the fuzzy acceptance boundary is EXCLUSIVE.  When no
exact fingerprint match exists: if every stored candidate scores at most the
threshold (equality included), the lookup reports a miss with the state
unchanged; and any fuzzy hit it does return carries a similarity strictly
above the threshold. -/
theorem smart_cache_lookup_threshold_exclusive (sim : String → String → ℚ)
    (s : DBState) (q : String) (t : ℚ) (hre : s.reachable = true)
    (hexact : (joinedRows s).find? (fun x => x.1.query_hash ==
        calculate_query_hash (apply_synonyms (normalize_query q))) = none) :
    ((∀ x ∈ joinedRows s,
        sim x.1.normalized_text (apply_synonyms (normalize_query q)) ≤ t) →
      smart_cache_lookup sim s q t = .ok (none, s)) ∧
    (∀ out s2, smart_cache_lookup sim s q t = .ok (out, s2) →
      ∀ hit, out = some hit → t < hit.similarity) := by
  constructor
  · intro hall
    have hnil : (joinedRows s).filter (fun r => t < sim r.1.normalized_text
        (apply_synonyms (normalize_query q))) = [] := by
      rw [List.filter_eq_nil_iff]
      intro x hx
      simp only [decide_eq_true_eq]
      exact not_lt.mpr (hall x hx)
    simp only [smart_cache_lookup, hre, if_true]
    rw [hexact, hnil]
    rfl
  · intro out s2 hlk hit hout
    subst hout
    simp only [smart_cache_lookup, hre, if_true] at hlk
    rw [hexact] at hlk
    cases hbc : bestCandidate (fun r => sim r.1.normalized_text
        (apply_synonyms (normalize_query q)))
        ((joinedRows s).filter (fun r => t < sim r.1.normalized_text
          (apply_synonyms (normalize_query q)))) with
    | none => rw [hbc] at hlk; simp at hlk
    | some r =>
      rw [hbc] at hlk
      simp only [Except.ok.injEq, Prod.mk.injEq, Option.some.injEq] at hlk
      have hmem := bestCandidate_mem _ _ _ hbc
      have := (List.mem_filter.mp hmem).2
      simp only [decide_eq_true_eq] at this
      rw [← hlk.1]
      exact this

/-- Witness for the amended C2: at the boundary score the lookup misses. -/
theorem smart_cache_lookup_threshold_exclusive_witness :
    smart_cache_lookup simConst dbOneCand "anything" ratSevenTenths =
      .ok (none, dbOneCand) :=
  (smart_cache_lookup_threshold_exclusive simConst dbOneCand "anything"
      ratSevenTenths (by decide) (by decide)).1 (by decide)

/-- Counterexample to claim C5 as stated: when the persistent store is
unreachable, `smart_cache_lookup` does not return a miss — the storage
exception propagates (there is no try/except in the cache layer).  On the
unreachable fixture the lookup evaluates to the storage error, not to
`.ok (none, _)`. -/
theorem lookup_fail_open_cex :
    smart_cache_lookup simConst dbDown "q" ((7 : ℚ) / 10) = .error .storageDown ∧
    smart_cache_lookup simConst dbDown "q" ((7 : ℚ) / 10) ≠ .ok (none, dbDown) := by
  exact ⟨by decide, by decide⟩

/-- Claim C5 amended: when the persistent store is unreachable, every cache
operation RAISES (the model's `.error .storageDown`) instead of degrading to a
miss: there is no exception handling in `CacheManager` or `AutoCacheManager`,
so a storage outage surfaces to the caller. -/
theorem cache_ops_propagate_storage_error (sim : String → String → ℚ)
    (s : DBState) (q r : String) (t : ℚ) (papers : List Nat) (pid : Nat)
    (days : Int) (h : s.reachable = false) :
    smart_cache_lookup sim s q t = .error .storageDown ∧
    store_in_cache s q r papers = .error .storageDown ∧
    check_auto_cache_eligibility s = .error .storageDown ∧
    trigger_auto_cache s pid = .error .storageDown ∧
    evict_stale_cache s days = .error .storageDown := by
  refine ⟨?_, ?_, ?_, ?_, ?_⟩ <;>
    simp [smart_cache_lookup, store_in_cache, check_auto_cache_eligibility,
      trigger_auto_cache, evict_stale_cache, h]

/-- Witness for the amended C5 on the unreachable fixture. -/
theorem cache_ops_propagate_storage_error_witness :
    smart_cache_lookup simConst dbDown "q" ((7 : ℚ) / 10) = .error .storageDown ∧
    store_in_cache dbDown "q" "r" [] = .error .storageDown ∧
    check_auto_cache_eligibility dbDown = .error .storageDown ∧
    trigger_auto_cache dbDown 1 = .error .storageDown ∧
    evict_stale_cache dbDown 50 = .error .storageDown :=
  cache_ops_propagate_storage_error simConst dbDown "q" "r" ((7 : ℚ) / 10) [] 1 50
    (by decide)

/-- Deleting rows by collected ids equals deleting rows by the predicate, when
response ids are unique (as the serial primary key guarantees). -/
theorem filter_erase_by_ids (rs : List CachedResponse) (p : CachedResponse → Bool)
    (hnodup : (rs.map (fun cr => cr.response_id)).Nodup) :
    rs.filter (fun cr =>
      !(((rs.filter p).map (fun c => c.response_id)).contains cr.response_id)) =
      rs.filter (fun cr => !(p cr)) := by
  apply List.filter_congr
  intro cr hcr
  congr 1
  cases hp : p cr with
  | true =>
    have hmem : cr.response_id ∈ (rs.filter p).map (fun c => c.response_id) :=
      List.mem_map.mpr ⟨cr, List.mem_filter.mpr ⟨hcr, hp⟩, rfl⟩
    exact List.elem_eq_true_of_mem hmem
  | false =>
    cases hcon : ((rs.filter p).map (fun c => c.response_id)).contains cr.response_id with
    | false => rfl
    | true =>
      exfalso
      have hidmem := List.mem_of_elem_eq_true hcon
      obtain ⟨cr2, hcr2, hid⟩ := List.mem_map.mp hidmem
      have hcr2rs := List.mem_filter.mp hcr2
      have heq : cr2 = cr :=
        List.inj_on_of_nodup_map hnodup hcr2rs.1 hcr hid
      rw [heq] at hcr2rs
      rw [hcr2rs.2] at hp
      cases hp

/-- Claim C6: the eviction sweep with age threshold 50 days and usage floor 5
keeps exactly the responses that are NOT (older than the cutoff AND served
fewer than 5 times); in particular an entry with `times_served = 3` last
served 1000 days ago is evicted, and an entry with `times_served = 100` is
retained regardless of age. -/
theorem evict_stale_cache_characterization (s : DBState) (counts : Nat × Nat)
    (s2 : DBState)
    (hnodup : (s.responses.map (fun cr => cr.response_id)).Nodup)
    (h : evict_stale_cache s 50 = .ok (counts, s2)) :
    s2.responses = s.responses.filter
      (fun cr => !(cr.last_served < s.now - 50 && cr.times_served < 5)) ∧
    (∀ cr ∈ s.responses, cr.times_served = 3 → cr.last_served = s.now - 1000 →
      cr ∉ s2.responses) ∧
    (∀ cr ∈ s.responses, cr.times_served = 100 → cr ∈ s2.responses) := by
  by_cases hre : s.reachable = true
  case neg => simp [evict_stale_cache, hre] at h
  simp only [evict_stale_cache, hre, if_true, Except.ok.injEq, Prod.mk.injEq] at h
  obtain ⟨hcounts, hs2⟩ := h
  have hresp : s2.responses = s.responses.filter
      (fun cr => !(cr.last_served < s.now - 50 && cr.times_served < 5)) := by
    rw [← hs2]
    exact filter_erase_by_ids s.responses _ hnodup
  refine ⟨hresp, ?_, ?_⟩
  · intro cr hcr h3 h1000 hmem
    rw [hresp] at hmem
    have hb := (List.mem_filter.mp hmem).2
    rw [h3, h1000] at hb
    have hage : s.now - 1000 < s.now - 50 := by omega
    simp [hage] at hb
  · intro cr hcr h100
    rw [hresp]
    apply List.mem_filter.mpr
    refine ⟨hcr, ?_⟩
    rw [h100]
    simp

/-- Witness for C6 on the two-response fixture. -/
theorem evict_stale_cache_characterization_witness :
    dbEvictAfter.responses = dbEvict.responses.filter
      (fun cr => !(cr.last_served < dbEvict.now - 50 && cr.times_served < 5)) ∧
    (∀ cr ∈ dbEvict.responses, cr.times_served = 3 →
      cr.last_served = dbEvict.now - 1000 → cr ∉ dbEvictAfter.responses) ∧
    (∀ cr ∈ dbEvict.responses, cr.times_served = 100 → cr ∈ dbEvictAfter.responses) :=
  evict_stale_cache_characterization dbEvict (1, 0) dbEvictAfter (by decide) (by decide)

/-- Claim C7: the eviction sweep never deletes a paper that is still
referenced by a live citation: any paper of the pre-state whose id is cited by
a citation row surviving the sweep is still present afterwards.  (The paper
DELETE carries `paper_id NOT IN (SELECT paper_id FROM response_citations)`,
evaluated after the stale responses and their citations are gone.) -/
theorem evict_preserves_cited_papers (s : DBState) (days : Int) (counts : Nat × Nat)
    (s2 : DBState) (h : evict_stale_cache s days = .ok (counts, s2)) :
    ∀ c ∈ s2.citations, ∀ p ∈ s.papers, p.paper_id = c.paper_id → p ∈ s2.papers := by
  by_cases hre : s.reachable = true
  case neg => simp [evict_stale_cache, hre] at h
  simp only [evict_stale_cache, hre, if_true, Except.ok.injEq, Prod.mk.injEq] at h
  obtain ⟨hcounts, hs2⟩ := h
  subst hs2
  intro c hc p hp hid
  simp only at hc ⊢
  apply List.mem_filter.mpr
  refine ⟨hp, ?_⟩
  have hcited : ((s.citations.filter (fun c0 =>
      !(((s.responses.filter (fun cr => cr.last_served < s.now - days &&
          cr.times_served < 5)).map (fun r0 => r0.response_id)).contains
        c0.response_id))).map (fun c0 => c0.paper_id)).contains c.paper_id = true :=
    List.elem_eq_true_of_mem (List.mem_map.mpr ⟨c, hc, rfl⟩)
  cases hcon : (((s.papers.filter (fun p0 =>
      p0.last_accessed < s.now - days && p0.times_used < 10 &&
        !(((s.citations.filter (fun c0 =>
          !(((s.responses.filter (fun cr => cr.last_served < s.now - days &&
              cr.times_served < 5)).map (fun r0 => r0.response_id)).contains
            c0.response_id))).map (fun c0 => c0.paper_id)).contains
          p0.paper_id))).map (fun p0 => p0.paper_id)).contains p.paper_id) with
  | false => rfl
  | true =>
    exfalso
    have hpid := List.mem_of_elem_eq_true hcon
    obtain ⟨p2, hp2, hid2⟩ := List.mem_map.mp hpid
    have hp2f := (List.mem_filter.mp hp2).2
    rw [Bool.and_eq_true, Bool.and_eq_true] at hp2f
    have hnotc := hp2f.2
    rw [hid2, hid] at hnotc
    rw [hcited] at hnotc
    cases hnotc

/-- Witness for C7: the cited paper of `dbCite` survives the sweep. -/
theorem evict_preserves_cited_papers_witness :
    (⟨1, "pm1", "t1", "a1", 0, -900⟩ : Paper) ∈ dbCiteAfter.papers :=
  evict_preserves_cited_papers dbCite 50 (1, 1) dbCiteAfter (by decide)
    ⟨1, 1, 1, 1⟩ (by decide) ⟨1, "pm1", "t1", "a1", 0, -900⟩ (by decide) rfl

/-- Counterexample to claim C8 as stated: the code's eligibility test is
`times_used >= 20`, inclusive, while the claim's "usage count exceeds the
high-traffic threshold of 20" is strict.  A paper with `times_used = 20` and
no citation is selected by the code but lies outside the claimed set (which is
empty here). -/
theorem promotion_boundary_cex :
    check_auto_cache_eligibility dbPromo = .ok [dbPromoPaper] ∧
    claimed_promotion_set dbPromo = [] := by
  exact ⟨by decide, by decide⟩

/-- Membership through ordered insert. -/
theorem mem_insertPaperDesc (p x : Paper) (l : List Paper) :
    x ∈ insertPaperDesc p l ↔ x = p ∨ x ∈ l := by
  induction l with
  | nil => simp [insertPaperDesc]
  | cons a t ih =>
    simp only [insertPaperDesc]
    by_cases hlt : a.times_used < p.times_used
    · rw [if_pos hlt]
      simp [List.mem_cons]
    · rw [if_neg hlt]
      simp only [List.mem_cons, ih]
      tauto

/-- The descending sort is a permutation as far as membership goes. -/
theorem mem_sortPapersDesc (x : Paper) (l : List Paper) :
    x ∈ sortPapersDesc l ↔ x ∈ l := by
  induction l with
  | nil => simp [sortPapersDesc]
  | cons a t ih =>
    simp [sortPapersDesc, mem_insertPaperDesc, ih, List.mem_cons]

/-- Ordered insert adds one element. -/
theorem length_insertPaperDesc (p : Paper) (l : List Paper) :
    (insertPaperDesc p l).length = l.length + 1 := by
  induction l with
  | nil => rfl
  | cons a t ih =>
    simp only [insertPaperDesc]
    by_cases hlt : a.times_used < p.times_used
    · rw [if_pos hlt]
      simp
    · rw [if_neg hlt]
      simp [ih]

/-- The descending sort preserves length. -/
theorem length_sortPapersDesc (l : List Paper) :
    (sortPapersDesc l).length = l.length := by
  induction l with
  | nil => rfl
  | cons a t ih =>
    simp [sortPapersDesc, length_insertPaperDesc, ih]

/-- Claim C8 amended: the promotion sweep selects papers whose usage count is
AT LEAST 20 (inclusive) that lack any citation, capped at the 10 most used;
when at most 10 papers qualify, every qualifying paper is selected.  For a
selected paper id, `trigger_auto_cache` generates the synthetic query and
stores a response citing exactly that paper. -/
theorem promotion_select_and_insert (s : DBState) (pid : Nat) (elig : List Paper)
    (hre : s.reachable = true)
    (helig : check_auto_cache_eligibility s = .ok elig) :
    (∀ p ∈ elig, p ∈ s.papers ∧ 20 ≤ p.times_used ∧
      ((citedPaperIds s).contains p.paper_id) = false) ∧
    elig.length = min 10 (s.papers.filter (fun p =>
      20 ≤ p.times_used && !((citedPaperIds s).contains p.paper_id))).length ∧
    ((s.papers.filter (fun p =>
        20 ≤ p.times_used && !((citedPaperIds s).contains p.paper_id))).length ≤ 10 →
      ∀ p ∈ s.papers, 20 ≤ p.times_used →
        ((citedPaperIds s).contains p.paper_id) = false → p ∈ elig) ∧
    (∀ paper, s.papers.find? (fun p => p.paper_id == pid) = some paper →
      ∀ ok s2, trigger_auto_cache s pid = .ok (ok, s2) →
        ok = true ∧
        s2.citations = s.citations ++ [⟨s.nextResponseId, pid, 1, 1⟩] ∧
        s2.responses.length = s.responses.length + 1 ∧
        ∃ uq : UserQuery, s2.queries = s.queries ++ [uq] ∧
          uq.query_text = "What does research say about " ++ pyLower paper.title) := by
  simp only [check_auto_cache_eligibility, hre, if_true, Except.ok.injEq] at helig
  refine ⟨?_, ?_, ?_, ?_⟩
  · intro p hp
    rw [← helig] at hp
    have hsorted := List.mem_of_mem_take hp
    have hfil := (mem_sortPapersDesc p _).mp hsorted
    have hm := List.mem_filter.mp hfil
    rw [Bool.and_eq_true] at hm
    refine ⟨hm.1, ?_, ?_⟩
    · have := hm.2.1
      simpa using this
    · have := hm.2.2
      simp only [Bool.not_eq_true'] at this
      exact this
  · rw [← helig, List.length_take, length_sortPapersDesc]
  · intro hle p hp h20 hcon
    rw [← helig]
    have hfil : p ∈ s.papers.filter (fun p =>
        20 ≤ p.times_used && !((citedPaperIds s).contains p.paper_id)) := by
      apply List.mem_filter.mpr
      refine ⟨hp, ?_⟩
      rw [Bool.and_eq_true, decide_eq_true_eq, Bool.not_eq_true']
      exact ⟨h20, hcon⟩
    have hsorted := (mem_sortPapersDesc p _).mpr hfil
    have hlen : (sortPapersDesc (s.papers.filter (fun p =>
        20 ≤ p.times_used && !((citedPaperIds s).contains p.paper_id)))).length ≤ 10 := by
      rw [length_sortPapersDesc]
      exact hle
    rw [List.take_of_length_le hlen]
    exact hsorted
  · intro paper hfind ok s2 hlk
    simp only [trigger_auto_cache, hre, if_true, hfind, store_in_cache,
      Except.ok.injEq, Prod.mk.injEq] at hlk
    obtain ⟨hok, hs2⟩ := hlk
    subst hs2
    refine ⟨hok.symm, rfl, by simp, ?_⟩
    exact ⟨_, rfl, rfl⟩

/-- Witness for the amended C8 on the boundary fixture. -/
theorem promotion_select_and_insert_witness :
    true = true ∧
    dbPromoAfter.citations = dbPromo.citations ++ [⟨0, 1, 1, 1⟩] ∧
    dbPromoAfter.responses.length = dbPromo.responses.length + 1 ∧
    (∃ uq : UserQuery, dbPromoAfter.queries = dbPromo.queries ++ [uq] ∧
      uq.query_text = "What does research say about " ++ pyLower dbPromoPaper.title) :=
  (promotion_select_and_insert dbPromo 1 [dbPromoPaper] (by decide) (by decide)).2.2.2
    dbPromoPaper (by decide) true dbPromoAfter (by decide)

end FitFact
